import Mathlib

/-!
Shallow embedding of the rudiments drum-machine core (src/pattern.rs,
src/instrumentation.rs, src/audio.rs) and proofs about it.

Conventions of the embedding:
* Strings are `List Char`; nom parsers of type `IResult<&str, T>` become
  `List Char → Option (List Char × T)` (`none` = parse failure).
* `f32` amplitude and duration arithmetic is modelled over `ℚ` (the exact
  values of the computations the code performs).
* `Duration` panic conditions (`from_secs_f32` on a non-finite / negative /
  out-of-range value, `mul_f32` producing a negative duration) are modelled
  with `Option ℚ` where `none` marks a panic; `fdiv` marks the non-finite
  result of a float division by zero.
* Rust `HashMap` / `HashSet` become association lists / lists; the iteration
  order of a hash container becomes the list order, so order-(in)dependence
  can be stated as permutation invariance.
-/

namespace Rudiments

/-- `STEPS_PER_MEASURE` from src/pattern.rs. -/
def STEPS_PER_MEASURE : Nat := 16

/-- `BEATS_PER_MEASURE` from src/pattern.rs. -/
def BEATS_PER_MEASURE : Nat := 4

/-- A track's step sequence (`Steps`, a `BitVec`, in src/pattern.rs). -/
abbrev Steps := List Bool

/-- `Steps::zeros` from src/pattern.rs. -/
def Steps.zeros : Steps := List.replicate STEPS_PER_MEASURE false

/-- `Steps::union` from src/pattern.rs: in-place bitwise or (`|=`). -/
def Steps.union (a b : Steps) : Steps := List.zipWith or a b

/-- `Iterator::rposition` specialised to the identity predicate, as used in
`Steps::trailing_silent_steps`: index of the last `true` element. -/
def rposition (l : List Bool) : Option Nat :=
  match l.reverse.findIdx? (fun b => b) with
  | some j => some (l.length - 1 - j)
  | none => none

/-- `Steps::trailing_silent_steps` from src/pattern.rs. -/
def Steps.trailing_silent_steps (s : Steps) : Nat :=
  match rposition s with
  | some n => STEPS_PER_MEASURE - (n + 1)
  | none => 0

/-- `measure_duration` from src/audio.rs, with `f32` arithmetic taken
exactly: `1.0 / (tempo / 60.0 / 4.0)` seconds. -/
def measure_duration (t : ℚ) : ℚ := 1 / (t / 60 / (BEATS_PER_MEASURE : ℚ))

/-- `step_duration` from src/audio.rs. -/
def step_duration (t : ℚ) : ℚ := measure_duration t / (STEPS_PER_MEASURE : ℚ)

/-- `delay_factor` from src/audio.rs: `-1.0 / 120.0 * tempo + 2.0`. -/
def delay_factor (t : ℚ) : ℚ := -1 / 120 * t + 2

/-- `delay_pad_duration` from src/audio.rs:
`step_duration(tempo).mul_f32(delay_factor(tempo)) * trailing_silent_steps`. -/
def delay_pad_duration (t : ℚ) (trailing_silent : ℕ) : ℚ :=
  step_duration t * delay_factor t * (trailing_silent : ℚ)

/-- The padding delay `play_repeat` (src/audio.rs) applies at the start of
repeat playback: `delay_pad_duration` of the trailing silence of the
aggregate step sequence. -/
def play_repeat_pad (t : ℚ) (aggregate : Steps) : ℚ :=
  delay_pad_duration t (Steps.trailing_silent_steps aggregate)

/-! ### Duration-API-faithful timing (panic conditions made explicit)

`Duration::from_secs_f32` panics when its argument is not finite, negative,
or too large; `Duration::mul_f32` goes through the same conversion.  A float
division by zero yields a non-finite value.  `none` marks a panic (or, for
`fdiv`, a non-finite float). -/

/-- `f32` division, with `none` marking the non-finite result of dividing a
nonzero value by zero (or NaN for 0/0). -/
def fdiv (a b : ℚ) : Option ℚ := if b = 0 then none else some (a / b)

/-- `Duration::from_secs_f32`: panics (`none`) on a non-finite, negative, or
out-of-range argument. -/
def from_secs_f32E (x : Option ℚ) : Option ℚ :=
  match x with
  | none => none
  | some v => if 0 ≤ v ∧ v < 2 ^ 64 then some v else none

/-- `measure_duration` from src/audio.rs with the `Duration::from_secs_f32`
panic condition explicit. -/
def measure_durationE (t : ℕ) : Option ℚ :=
  from_secs_f32E (fdiv 1 ((t : ℚ) / 60 / (BEATS_PER_MEASURE : ℚ)))

/-- `step_duration` from src/audio.rs over `measure_durationE`
(division of a `Duration` by a positive integer never panics). -/
def step_durationE (t : ℕ) : Option ℚ :=
  (measure_durationE t).map (fun d => d / (STEPS_PER_MEASURE : ℚ))

/-- `Duration::mul_f32`: converts the product back through
`from_secs_f32`, so a negative or out-of-range product panics (`none`). -/
def mul_f32E (d f : ℚ) : Option ℚ := from_secs_f32E (some (d * f))

/-- `delay_pad_duration` from src/audio.rs with the `Duration` panic
conditions explicit. -/
def delay_pad_durationE (t : ℕ) (trailing_silent : ℕ) : Option ℚ :=
  (step_durationE t).bind fun d =>
    (mul_f32E d (delay_factor (t : ℚ))).map fun p => p * (trailing_silent : ℚ)

/-! ### Parsers (src/pattern.rs, src/instrumentation.rs)

nom parsers become functions `List Char → Option (List Char × α)`. -/

/-- The character class of nom's `space0`/`space1` (space and tab). -/
def isSpaceTab (c : Char) : Bool := c == ' ' || c == '\t'

/-- nom `space0`: drop leading spaces and tabs (never fails). -/
def space0 (s : List Char) : List Char := s.dropWhile isSpaceTab

/-- nom `space1`: at least one space or tab, then drop the run. -/
def space1 (s : List Char) : Option (List Char) :=
  if (s.takeWhile isSpaceTab).isEmpty then none else some (s.dropWhile isSpaceTab)

/-- nom `is_not`: longest nonempty run of characters not in `bad`;
fails on an empty run. -/
def is_not (bad : List Char) (s : List Char) : Option (List Char × List Char) :=
  let tok := s.takeWhile (fun c => !(bad.contains c))
  if tok.isEmpty then none
  else some (s.dropWhile (fun c => !(bad.contains c)), tok)

/-- A track's instrument name (`Instrument` in src/pattern.rs). -/
abbrev Instrument := List Char

/-- `parse_instrument` from src/pattern.rs: `is_not(" \t")`. -/
def parse_instrument (s : List Char) : Option (List Char × Instrument) :=
  is_not [' ', '\t'] s

/-- A character consumed by the step-block parser: play (`x`), silent (`-`),
or the beat separator (`|`). -/
def stepsChar (c : Char) : Bool := c == 'x' || c == '-' || c == '|'

/-- The `fold_many1` body of `parse_steps` (src/pattern.rs): consume the
longest nonempty run of step/separator characters, pushing `true` for play
and `false` for silent, separators pushing nothing. -/
def stepsFold (s : List Char) : Option (List Char × List Bool) :=
  let consumed := s.takeWhile stepsChar
  if consumed.isEmpty then none
  else
    some (s.dropWhile stepsChar,
      consumed.filterMap fun c =>
        if c == 'x' then some true else if c == '-' then some false else none)

/-- `parse_steps` from src/pattern.rs: the fold, then `verify` that exactly
`STEPS_PER_MEASURE` step values were produced. -/
def parse_steps (s : List Char) : Option (List Char × List Bool) :=
  match stepsFold s with
  | some (r, v) => if v.length = STEPS_PER_MEASURE then some (r, v) else none
  | none => none

/-- Numeric value of a digit run (the integer a digit string denotes). -/
def digitsToNat (l : List Char) : ℕ := l.foldl (fun a c => 10 * a + (c.toNat - 48)) 0

/-- nom `float` (as used by `parse_amplitude`): optional sign, then either
`digit+ ['.' digit*]` or `'.' digit+`, then an optional exponent
`('e'|'E') [sign] digit+`; the denoted value taken exactly in `ℚ`. -/
def float (s : List Char) : Option (List Char × ℚ) :=
  let sgn : ℚ × List Char :=
    match s with
    | '+' :: t => (1, t)
    | '-' :: t => (-1, t)
    | _ => (1, s)
  let s1 := sgn.2
  let ip := s1.takeWhile Char.isDigit
  let s2 := s1.dropWhile Char.isDigit
  let mant : Option (ℚ × List Char) :=
    if ip.isEmpty then
      match s2 with
      | '.' :: t =>
        let fp := t.takeWhile Char.isDigit
        if fp.isEmpty then none
        else some ((digitsToNat fp : ℚ) / 10 ^ fp.length, t.dropWhile Char.isDigit)
      | _ => none
    else
      match s2 with
      | '.' :: t =>
        let fp := t.takeWhile Char.isDigit
        some ((digitsToNat ip : ℚ) + (digitsToNat fp : ℚ) / 10 ^ fp.length,
          t.dropWhile Char.isDigit)
      | _ => some ((digitsToNat ip : ℚ), s2)
  match mant with
  | none => none
  | some (m, s3) =>
    match s3 with
    | c :: t =>
      if c == 'e' || c == 'E' then
        let esgn : ℤ × List Char :=
          match t with
          | '+' :: u => (1, u)
          | '-' :: u => (-1, u)
          | _ => (1, t)
        let ed := esgn.2.takeWhile Char.isDigit
        if ed.isEmpty then none
        else
          some (esgn.2.dropWhile Char.isDigit,
            sgn.1 * m * (10 : ℚ) ^ (esgn.1 * (digitsToNat ed : ℤ)))
      else some (s3, sgn.1 * m)
    | [] => some ([], sgn.1 * m)

/-- `Amplitude::defaulting` from src/pattern.rs: `unwrap_or(1.0)`. -/
def Amplitude.defaulting (o : Option ℚ) : ℚ := o.getD 1

/-- `parse_amplitude` from src/pattern.rs: `verify(opt(float), 0 ≤ v ≤ 1)`.
A failed `float` backtracks to `none` (the field is optional); a parsed value
outside `[0, 1]` fails the whole parser. -/
def parse_amplitude (s : List Char) : Option (List Char × Option ℚ) :=
  match float s with
  | some (r, v) => if 0 ≤ v ∧ v ≤ 1 then some (r, some v) else none
  | none => some (s, none)

/-- `parse_track` from src/pattern.rs: leading spaces, instrument token,
spaces, step block, spaces, optional amplitude, then `all_consuming(space0)`
(any leftover non-space content is a failure). -/
def parse_track (s : List Char) : Option (Instrument × List Bool × ℚ) :=
  match parse_instrument (space0 s) with
  | none => none
  | some (s1, instrument) =>
    match parse_steps (space0 s1) with
    | none => none
    | some (s2, steps) =>
      match parse_amplitude (space0 s2) with
      | none => none
      | some (s3, amplitude) =>
        if (space0 s3).isEmpty then
          some (instrument, steps, Amplitude.defaulting amplitude)
        else none

/-! ### Pattern and Instrumentation files (src/pattern.rs, src/instrumentation.rs) -/

/-- The error enum of src/error.rs (the variants the core produces while
parsing; I/O payloads dropped). -/
inductive Error where
  | ParseError (line : List Char)
  | DuplicatePatternError (line : List Char)
  | DuplicateInstrumentError (instrument : List Char)
  | FileDoesNotExistError
  deriving DecidableEq

/-- A `Pattern`'s map (`HashMap<Instrument, (Steps, Amplitude)>`) as an
association list. -/
abbrev Pattern := List (Instrument × (List Bool × ℚ))

/-- `Pattern::get` from src/pattern.rs. -/
def Pattern.get (p : Pattern) (i : Instrument) : Option (List Bool × ℚ) :=
  match p with
  | [] => none
  | (j, v) :: t => if j = i then some v else Pattern.get t i

/-- The line loop of `Pattern::parse` (src/pattern.rs): each line must parse
as a track; inserting an instrument already present is a duplicate error. -/
def parseLoop (m : Pattern) : List (List Char) → Except Error Pattern
  | [] => Except.ok m
  | l :: ls =>
    match parse_track l with
    | some (i, st, a) =>
      match Pattern.get m i with
      | some _ => Except.error (Error.DuplicatePatternError l)
      | none => parseLoop ((i, (st, a)) :: m) ls
    | none => Except.error (Error.ParseError l)

/-- `Pattern::parse` from src/pattern.rs; `none` stands for a missing file
(the `!p.is_file()` check), `some lines` for the file's lines. -/
def Pattern.parse (file : Option (List (List Char))) : Except Error Pattern :=
  match file with
  | none => Except.error Error.FileDoesNotExistError
  | some ls => parseLoop [] ls

/-- A sample file path (`SampleFile` in src/instrumentation.rs). -/
abbrev SampleFile := List Char

/-- `parse_sound_file` from src/instrumentation.rs: `is_not(" \t\r\n")`. -/
def parse_sound_file (s : List Char) : Option (List Char × SampleFile) :=
  is_not [' ', '\t', '\r', '\n'] s

/-- `parse_binding` from src/instrumentation.rs: leading spaces, instrument
token, at least one space, sample-file token (trailing content is left
unconsumed and ignored by the caller). -/
def parse_binding (s : List Char) : Option (List Char × (Instrument × SampleFile)) :=
  match parse_instrument (space0 s) with
  | none => none
  | some (s1, i) =>
    match space1 s1 with
    | none => none
    | some s2 =>
      match parse_sound_file s2 with
      | none => none
      | some (s3, f) => some (s3, (i, f))

/-- An `Instrumentation`'s map (`HashMap<SampleFile, HashSet<Instrument>>`)
as an association list of instrument lists. -/
abbrev Instrumentation := List (SampleFile × List Instrument)

/-- The duplicate check of `Instrumentation::parse`:
`m.values().any(|is| is.contains(&i))`. -/
def containsInstrument (m : Instrumentation) (i : Instrument) : Bool :=
  m.any fun e => e.2.contains i

/-- The insertion step of `Instrumentation::parse`: add `i` to the set of
`f`, creating the entry when `f` is new. -/
def insertInstrument (m : Instrumentation) (f : SampleFile) (i : Instrument) :
    Instrumentation :=
  match m with
  | [] => [(f, [i])]
  | (g, is) :: t =>
    if g = f then (g, i :: is) :: t else (g, is) :: insertInstrument t f i

/-- The line loop of `Instrumentation::parse` (src/instrumentation.rs). -/
def instrumentationLoop (m : Instrumentation) :
    List (List Char) → Except Error Instrumentation
  | [] => Except.ok m
  | l :: ls =>
    match parse_binding l with
    | some (_, (i, f)) =>
      if containsInstrument m i then
        Except.error (Error.DuplicateInstrumentError i)
      else instrumentationLoop (insertInstrument m f i) ls
    | none => Except.error (Error.ParseError l)

/-- `Instrumentation::parse` from src/instrumentation.rs; `none` stands for
a missing file. -/
def Instrumentation.parse (file : Option (List (List Char))) :
    Except Error Instrumentation :=
  match file with
  | none => Except.error Error.FileDoesNotExistError
  | some ls => instrumentationLoop [] ls

/-! ### Track binding (src/audio.rs) -/

/-- The instrument fold body of `bind_tracks` (src/audio.rs): thread the
aggregate sequence and the per-track `(steps, amplitude)` accumulator. -/
def bindStep (p : Pattern) (acc : Steps × (Steps × ℚ)) (i : Instrument) :
    Steps × (Steps × ℚ) :=
  match Pattern.get p i with
  | some (st, a) =>
    (Steps.union acc.1 st, (Steps.union acc.2.1 st, min acc.2.2 a))
  | none => acc

/-- The per-sample-file reduction of `bind_tracks`: fold the file's
instruments starting from `(Steps::zeros(), Amplitude::max())`, updating the
given aggregate along the way. -/
def bindFoldAgg (p : Pattern) (agg : Steps) (instruments : List Instrument) :
    Steps × (Steps × ℚ) :=
  instruments.foldl (bindStep p) (agg, (Steps.zeros, 1))

/-- The per-sample-file track value alone (second component of
`bindFoldAgg`, whose fold ignores the aggregate). -/
def bindFold (p : Pattern) (instruments : List Instrument) : Steps × ℚ :=
  (bindFoldAgg p Steps.zeros instruments).2

/-- `bind_tracks` from src/audio.rs: map each `(sample file, instruments)`
entry to its reduced track while threading one aggregate sequence. -/
def bind_tracks (p : Pattern) (instr : Instrumentation) :
    List (SampleFile × (Steps × ℚ)) × Steps :=
  instr.foldl
    (fun acc e =>
      let r := bindFoldAgg p acc.2 e.2
      (acc.1 ++ [(e.1, r.2)], r.1))
    ([], Steps.zeros)

/-- The padding delay `play` (src/audio.rs) applies on repeat playback,
with the aggregate sequence it passes made explicit: `bind_tracks`'
aggregate. -/
def play_pad (p : Pattern) (instr : Instrumentation) (t : ℚ) : ℚ :=
  play_repeat_pad t (bind_tracks p instr).2

/-! ### Helper lemmas -/

theorem takeWhile_append_stop {p : Char → Bool} (l1 : List Char) (c : Char)
    (l2 : List Char) (h1 : ∀ x ∈ l1, p x = true) (hc : p c = false) :
    List.takeWhile p (l1 ++ c :: l2) = l1 := by
  induction l1 with
  | nil =>
    simp only [List.nil_append]
    exact List.takeWhile_cons_of_neg (by simp [hc])
  | cons a t ih =>
    have ha : p a = true := h1 a (by simp)
    simp only [List.cons_append, List.takeWhile_cons_of_pos ha]
    rw [ih fun x hx => h1 x (by simp [hx])]

theorem dropWhile_append_stop {p : Char → Bool} (l1 : List Char) (c : Char)
    (l2 : List Char) (h1 : ∀ x ∈ l1, p x = true) (hc : p c = false) :
    List.dropWhile p (l1 ++ c :: l2) = c :: l2 := by
  induction l1 with
  | nil =>
    simp only [List.nil_append]
    exact List.dropWhile_cons_of_neg (by simp [hc])
  | cons a t ih =>
    have ha : p a = true := h1 a (by simp)
    simp only [List.cons_append, List.dropWhile_cons_of_pos ha]
    exact ih fun x hx => h1 x (by simp [hx])

/-! ### Theorems -/

/-- C1: the spec claims `trailing_silent_steps` of the entirely silent
16-step sequence is 16; the code's `rposition` returns `None` on an
all-silent sequence and that branch yields 0, contradicting the function's
own doc comment ("the number of silent steps at the end of this
sequence"). -/
theorem trailing_silent_steps_all_silent :
    Steps.trailing_silent_steps (List.replicate STEPS_PER_MEASURE false) = 0
  ∧ Steps.trailing_silent_steps (List.replicate STEPS_PER_MEASURE false)
      ≠ STEPS_PER_MEASURE := by
  decide

theorem stepsFilterMap_length (l : List Char) :
    (l.filterMap fun c =>
        if c == 'x' then some true else if c == '-' then some false else none).length
      = l.countP fun c => c == 'x' || c == '-' := by
  induction l with
  | nil => rfl
  | cons a t ih =>
    rcases eq_or_ne a 'x' with hx | hx
    · subst hx
      simpa [List.filterMap_cons, List.countP_cons] using ih
    · rcases eq_or_ne a '-' with hs | hs
      · subst hs
        simpa [List.filterMap_cons, List.countP_cons] using ih
      · simpa [List.filterMap_cons, List.countP_cons, hx, hs] using ih

/-- C5: every accepted step block yields exactly 16 step values (separator
characters contribute none: the value count equals the count of play/silent
characters consumed), and a block whose fold decodes to any other number of
step values is rejected by `parse_steps`. -/
theorem parse_steps_length_spec (s r : List Char) (v : List Bool) :
    (parse_steps s = some (r, v) → v.length = STEPS_PER_MEASURE)
  ∧ (stepsFold s = some (r, v) →
      v.length = (s.takeWhile stepsChar).countP fun c => c == 'x' || c == '-')
  ∧ (stepsFold s = some (r, v) → v.length ≠ STEPS_PER_MEASURE →
      parse_steps s = none) := by
  refine ⟨?_, ?_, ?_⟩
  · intro h
    unfold parse_steps at h
    cases hf : stepsFold s with
    | none => rw [hf] at h; exact absurd h (by simp)
    | some rv =>
      obtain ⟨r', v'⟩ := rv
      rw [hf] at h
      have h' : (if v'.length = STEPS_PER_MEASURE then some (r', v') else none)
          = some (r, v) := h
      by_cases hl : v'.length = STEPS_PER_MEASURE
      · rw [if_pos hl] at h'
        cases h'
        exact hl
      · rw [if_neg hl] at h'
        exact absurd h' (by simp)
  · intro h
    unfold stepsFold at h
    by_cases he : (s.takeWhile stepsChar).isEmpty
    · rw [if_pos he] at h
      exact absurd h (by simp)
    · rw [if_neg he] at h
      cases h
      exact stepsFilterMap_length _
  · intro h hne
    unfold parse_steps
    rw [h]
    show (if v.length = STEPS_PER_MEASURE then some (r, v) else none) = none
    rw [if_neg hne]

/-- Witness for C5 on the all-silent block (accepted, 16 values) and a
17-step block (rejected). -/
theorem parse_steps_length_spec_witness :
    (parse_steps ("|----|----|----|----|".toList)
        = some ([], List.replicate 16 false)
      ∧ (List.replicate 16 false).length = STEPS_PER_MEASURE)
  ∧ (stepsFold ("|----|----|----|----|-".toList)
        = some ([], List.replicate 17 false)
      ∧ (List.replicate 17 false).length ≠ STEPS_PER_MEASURE
      ∧ parse_steps ("|----|----|----|----|-".toList) = none) :=
  ⟨⟨by decide,
    (parse_steps_length_spec ("|----|----|----|----|".toList) []
      (List.replicate 16 false)).1 (by decide)⟩,
   ⟨by decide, by decide,
    (parse_steps_length_spec ("|----|----|----|----|-".toList) []
      (List.replicate 17 false)).2.2 (by decide) (by decide)⟩⟩

/-- C2: for every tempo `T > 0` and every aggregate step sequence, the
loop-padding delay applied at the start of repeat playback equals
`step_duration T * (2 - T / 120) * trailing_silent_steps`, the trailing
silence being computed from the aggregate sequence produced by
`bind_tracks` (not per track), and `delay_factor 120 = 1`. -/
theorem play_repeat_pad_formula (t : ℚ) (_ht : 0 < t) (aggregate : Steps)
    (p : Pattern) (instr : Instrumentation) :
    play_repeat_pad t aggregate
        = step_duration t * (2 - t / 120)
            * (Steps.trailing_silent_steps aggregate : ℚ)
  ∧ play_pad p instr t
        = step_duration t * (2 - t / 120)
            * (Steps.trailing_silent_steps (bind_tracks p instr).2 : ℚ)
  ∧ delay_factor 120 = 1 := by
  refine ⟨?_, ?_, ?_⟩
  · unfold play_repeat_pad delay_pad_duration delay_factor
    ring
  · unfold play_pad play_repeat_pad delay_pad_duration delay_factor
    ring
  · unfold delay_factor
    norm_num

/-- Witness for C2 at tempo 120 with empty pattern and instrumentation. -/
theorem play_repeat_pad_formula_witness :
    (0 : ℚ) < 120
  ∧ (play_repeat_pad 120 Steps.zeros
        = step_duration 120 * (2 - 120 / 120)
            * (Steps.trailing_silent_steps Steps.zeros : ℚ)
    ∧ play_pad [] [] 120
        = step_duration 120 * (2 - 120 / 120)
            * (Steps.trailing_silent_steps (bind_tracks [] []).2 : ℚ)
    ∧ delay_factor 120 = 1) :=
  ⟨by decide, play_repeat_pad_formula 120 (by decide) Steps.zeros [] []⟩

theorem Pattern.get_cons_none_iff (i j : Instrument) (v : List Bool × ℚ)
    (m : Pattern) :
    Pattern.get ((i, v) :: m) j = none ↔ i ≠ j ∧ Pattern.get m j = none := by
  by_cases h : i = j
  · simp [Pattern.get, h]
  · simp [Pattern.get, h]

/-- C8: two lines that parse to the same instrument name make
`Pattern::parse` fail with a duplicate error carrying the second line,
whatever their step sequences and amplitudes. -/
theorem pattern_duplicate_spec (l1 l2 : List Char) (i : Instrument)
    (s1 s2 : List Bool) (a1 a2 : ℚ)
    (h1 : parse_track l1 = some (i, s1, a1))
    (h2 : parse_track l2 = some (i, s2, a2)) :
    Pattern.parse (some [l1, l2])
      = Except.error (Error.DuplicatePatternError l2) := by
  show parseLoop [] [l1, l2] = _
  unfold parseLoop
  rw [h1]
  show parseLoop [(i, (s1, a1))] [l2] = _
  unfold parseLoop
  rw [h2]
  have hg : Pattern.get [(i, (s1, a1))] i = some (s1, a1) := by
    unfold Pattern.get
    rw [if_pos rfl]
  show (match Pattern.get [(i, (s1, a1))] i with
        | some _ => Except.error (Error.DuplicatePatternError l2)
        | none => parseLoop ((i, (s2, a2)) :: [(i, (s1, a1))]) []) = _
  rw [hg]

/-- The first line of the witness pattern file. -/
def goodLine : List Char := "a |----|----|----|----|".toList

/-- The second line of the witness pattern file: same instrument, different
steps. -/
def goodLine2 : List Char := "a |x---|----|x---|----|".toList

/-- Witness for C8 on two concrete lines naming instrument `a`. -/
theorem pattern_duplicate_spec_witness :
    parse_track goodLine
        = some (['a'], List.replicate 16 false, 1)
  ∧ Pattern.parse (some [goodLine, goodLine2])
        = Except.error (Error.DuplicatePatternError goodLine2) :=
  ⟨by decide,
    pattern_duplicate_spec goodLine goodLine2 ['a']
      (List.replicate 16 false)
      [true, false, false, false, false, false, false, false,
       true, false, false, false, false, false, false, false]
      1 1 (by decide) (by decide)⟩

/-- `isOk` for the error monad of the embedding. -/
def isOkE {α : Type} (e : Except Error α) : Bool :=
  match e with
  | Except.ok _ => true
  | Except.error _ => false

/-- The instrument names of the lines that parse as tracks. -/
def trackInstrs (ls : List (List Char)) : List Instrument :=
  ls.filterMap fun l => (parse_track l).map fun t => t.1

theorem parseLoop_ok_iff (ls : List (List Char)) :
    ∀ m : Pattern,
      isOkE (parseLoop m ls) = true ↔
        (∀ l ∈ ls, (parse_track l).isSome = true)
        ∧ (trackInstrs ls).Nodup
        ∧ ∀ i ∈ trackInstrs ls, Pattern.get m i = none := by
  induction ls with
  | nil =>
    intro m
    simp [parseLoop, trackInstrs, isOkE]
  | cons l t ih =>
    intro m
    cases hp : parse_track l with
    | none =>
      have hLHS : isOkE (parseLoop m (l :: t)) = false := by
        unfold parseLoop
        rw [hp]
        rfl
      rw [hLHS]
      simp only [Bool.false_eq_true, false_iff]
      intro hR
      have hl := hR.1 l (by simp)
      rw [hp] at hl
      exact absurd hl (by simp)
    | some tr =>
      obtain ⟨i, s, a⟩ := tr
      have hinstrs : trackInstrs (l :: t) = i :: trackInstrs t := by
        unfold trackInstrs
        rw [List.filterMap_cons, hp]
        rfl
      cases hg : Pattern.get m i with
      | some w =>
        have hLHS : isOkE (parseLoop m (l :: t)) = false := by
          unfold parseLoop
          rw [hp]
          show isOkE (match Pattern.get m i with
            | some _ => Except.error (Error.DuplicatePatternError l)
            | none => parseLoop ((i, (s, a)) :: m) t) = false
          rw [hg]
          rfl
        rw [hLHS]
        simp only [Bool.false_eq_true, false_iff]
        intro hR
        have := hR.2.2 i (by rw [hinstrs]; simp)
        rw [hg] at this
        exact absurd this (by simp)
      | none =>
        have hLHS : isOkE (parseLoop m (l :: t))
            = isOkE (parseLoop ((i, (s, a)) :: m) t) := by
          conv_lhs => unfold parseLoop
          rw [hp]
          show isOkE (match Pattern.get m i with
            | some _ => Except.error (Error.DuplicatePatternError l)
            | none => parseLoop ((i, (s, a)) :: m) t) = _
          rw [hg]
        rw [hLHS, ih ((i, (s, a)) :: m), hinstrs]
        constructor
        · rintro ⟨hA, hNd, hC⟩
          refine ⟨?_, ?_, ?_⟩
          · intro l' hl'
            rcases List.mem_cons.mp hl' with h | h
            · subst h
              rw [hp]
              rfl
            · exact hA l' h
          · refine List.nodup_cons.mpr ⟨?_, hNd⟩
            intro hmem
            have := (Pattern.get_cons_none_iff i i (s, a) m).mp (hC i hmem)
            exact this.1 rfl
          · intro j hj
            rcases List.mem_cons.mp hj with h | h
            · subst h
              exact hg
            · exact ((Pattern.get_cons_none_iff i j (s, a) m).mp (hC j h)).2
        · rintro ⟨hA, hNd, hC⟩
          refine ⟨fun l' hl' => hA l' (by simp [hl']), (List.nodup_cons.mp hNd).2, ?_⟩
          intro j hj
          refine (Pattern.get_cons_none_iff i j (s, a) m).mpr ⟨?_, hC j (by simp [hj])⟩
          intro hij
          subst hij
          exact (List.nodup_cons.mp hNd).1 hj

/-- C4 (amended): `Pattern::parse` fails on a missing file; an empty line is
itself a record that fails to parse (so empty lines do cause a parse
error); and for file contents, parsing succeeds exactly when every line --
empty ones included -- parses as a track record and no instrument repeats. -/
theorem pattern_parse_error_conditions :
    Pattern.parse none = Except.error Error.FileDoesNotExistError
  ∧ parse_track [] = none
  ∧ ∀ ls : List (List Char),
      isOkE (Pattern.parse (some ls)) = true ↔
        (∀ l ∈ ls, (parse_track l).isSome = true) ∧ (trackInstrs ls).Nodup := by
  refine ⟨rfl, rfl, ?_⟩
  intro ls
  show isOkE (parseLoop [] ls) = true ↔ _
  rw [parseLoop_ok_iff ls []]
  constructor
  · rintro ⟨hA, hNd, _⟩
    exact ⟨hA, hNd⟩
  · rintro ⟨hA, hNd⟩
    exact ⟨hA, hNd, fun i _ => rfl⟩

/-- Counterexample for C4 as stated: a file whose only non-empty line is a
valid record, plus one empty line; every non-empty line is valid, yet
`Pattern::parse` fails with a parse error on the empty line. -/
theorem pattern_parse_empty_line_cex :
    (parse_track goodLine).isSome = true
  ∧ ([] : List Char) ≠ goodLine
  ∧ Pattern.parse (some [goodLine, []]) = Except.error (Error.ParseError []) := by
  refine ⟨by decide, by decide, by rfl⟩

/-- A valid instrument token: nonempty, no space or tab. -/
def validInstrTok (i : List Char) : Prop :=
  i ≠ [] ∧ ∀ c ∈ i, (!(([' ', '\t'] : List Char).contains c)) = true

/-- A valid sample-file token: nonempty, none of space, tab, CR, LF. -/
def validFileTok (f : List Char) : Prop :=
  f ≠ [] ∧ ∀ c ∈ f, (!(([' ', '\t', '\r', '\n'] : List Char).contains c)) = true

theorem validInstrTok_isSpaceTab {i : List Char} (h : validInstrTok i) :
    ∀ c ∈ i, isSpaceTab c = false := by
  intro c hc
  have := h.2 c hc
  simp only [isSpaceTab]
  simp only [List.contains_cons, Bool.not_or] at this
  simp only [Bool.or_eq_false_iff]
  constructor
  · cases hsp : (c == ' ') with
    | false => rfl
    | true =>
      rw [beq_iff_eq] at hsp
      subst hsp
      simp at this
  · cases hsp : (c == '\t') with
    | false => rfl
    | true =>
      rw [beq_iff_eq] at hsp
      subst hsp
      simp at this

theorem validFileTok_isSpaceTab {f : List Char} (h : validFileTok f) :
    ∀ c ∈ f, isSpaceTab c = false := by
  intro c hc
  have := h.2 c hc
  simp only [isSpaceTab]
  simp only [List.contains_cons, Bool.not_or] at this
  simp only [Bool.or_eq_false_iff]
  constructor
  · cases hsp : (c == ' ') with
    | false => rfl
    | true =>
      rw [beq_iff_eq] at hsp
      subst hsp
      simp at this
  · cases hsp : (c == '\t') with
    | false => rfl
    | true =>
      rw [beq_iff_eq] at hsp
      subst hsp
      simp at this

/-- Evaluation of `parse_binding` on a well-formed line
`instrument ++ " " ++ file`. -/
theorem parse_binding_mk (i f : List Char)
    (hi : validInstrTok i) (hf : validFileTok f) :
    parse_binding (i ++ ' ' :: f) = some ([], (i, f)) := by
  obtain ⟨hine, hiv⟩ := hi
  obtain ⟨hfne, hfv⟩ := hf
  obtain ⟨c0, i', rfl⟩ : ∃ c0 i', i = c0 :: i' := by
    cases i with
    | nil => exact absurd rfl hine
    | cons a b => exact ⟨a, b, rfl⟩
  obtain ⟨d0, f', rfl⟩ : ∃ d0 f', f = d0 :: f' := by
    cases f with
    | nil => exact absurd rfl hfne
    | cons a b => exact ⟨a, b, rfl⟩
  have hc0 : isSpaceTab c0 = false :=
    validInstrTok_isSpaceTab ⟨hine, hiv⟩ c0 (by simp)
  have hd0 : isSpaceTab d0 = false :=
    validFileTok_isSpaceTab ⟨hfne, hfv⟩ d0 (by simp)
  have h0 : space0 ((c0 :: i') ++ ' ' :: d0 :: f') = (c0 :: i') ++ ' ' :: d0 :: f' := by
    unfold space0
    simp only [List.cons_append]
    exact List.dropWhile_cons_of_neg (by simp [hc0])
  have hinstr : parse_instrument ((c0 :: i') ++ ' ' :: d0 :: f')
      = some (' ' :: d0 :: f', c0 :: i') := by
    unfold parse_instrument is_not
    rw [takeWhile_append_stop _ _ _ hiv (by decide),
      dropWhile_append_stop _ _ _ hiv (by decide)]
    simp
  have h1 : space1 (' ' :: d0 :: f') = some (d0 :: f') := by
    unfold space1
    rw [List.takeWhile_cons_of_pos (by decide),
      List.dropWhile_cons_of_pos (by decide),
      List.dropWhile_cons_of_neg (by simp [hd0])]
    simp
  have hfile : parse_sound_file (d0 :: f') = some ([], d0 :: f') := by
    unfold parse_sound_file is_not
    rw [List.takeWhile_eq_self_iff.mpr hfv,
      List.dropWhile_eq_nil_iff.mpr hfv]
    simp [hfne]
  unfold parse_binding
  rw [h0, hinstr]
  show (match space1 (' ' :: d0 :: f') with
    | none => none
    | some s2 =>
      match parse_sound_file s2 with
      | none => none
      | some (s3, g) => some (s3, (c0 :: i', g))) = _
  rw [h1]
  show (match parse_sound_file (d0 :: f') with
    | none => none
    | some (s3, g) => some (s3, (c0 :: i', g))) = _
  rw [hfile]

theorem instrumentationLoop_cons_some (m : Instrumentation) (l : List Char)
    (ls : List (List Char)) (r : List Char) (i : Instrument) (f : SampleFile)
    (hb : parse_binding l = some (r, (i, f))) :
    instrumentationLoop m (l :: ls)
      = if containsInstrument m i then
          Except.error (Error.DuplicateInstrumentError i)
        else instrumentationLoop (insertInstrument m f i) ls := by
  conv_lhs => unfold instrumentationLoop
  rw [hb]

/-- C7: two instrumentation lines naming the same instrument (any sample
files) make `Instrumentation::parse` fail with a duplicate-instrument error
naming that instrument, while two distinct instruments sharing one sample
file are both collected into that file's instrument set. -/
theorem instrumentation_duplicate_spec
    (i i1 i2 f f1 f2 : List Char)
    (hi : validInstrTok i) (hi1 : validInstrTok i1) (hi2 : validInstrTok i2)
    (hf : validFileTok f) (hf1 : validFileTok f1) (hf2 : validFileTok f2)
    (hne : i1 ≠ i2) :
    Instrumentation.parse (some [i ++ ' ' :: f1, i ++ ' ' :: f2])
        = Except.error (Error.DuplicateInstrumentError i)
  ∧ Instrumentation.parse (some [i1 ++ ' ' :: f, i2 ++ ' ' :: f])
        = Except.ok [(f, [i2, i1])] := by
  constructor
  · show instrumentationLoop [] [i ++ ' ' :: f1, i ++ ' ' :: f2] = _
    rw [instrumentationLoop_cons_some [] _ _ [] i f1 (parse_binding_mk i f1 hi hf1)]
    rw [if_neg (by simp [containsInstrument])]
    have hins : insertInstrument [] f1 i = [(f1, [i])] := rfl
    rw [hins]
    rw [instrumentationLoop_cons_some [(f1, [i])] _ _ [] i f2
      (parse_binding_mk i f2 hi hf2)]
    rw [if_pos (by simp [containsInstrument])]
  · show instrumentationLoop [] [i1 ++ ' ' :: f, i2 ++ ' ' :: f] = _
    rw [instrumentationLoop_cons_some [] _ _ [] i1 f (parse_binding_mk i1 f hi1 hf)]
    rw [if_neg (by simp [containsInstrument])]
    have hins : insertInstrument [] f i1 = [(f, [i1])] := rfl
    rw [hins]
    rw [instrumentationLoop_cons_some [(f, [i1])] _ _ [] i2 f
      (parse_binding_mk i2 f hi2 hf)]
    have hcon : containsInstrument [(f, [i1])] i2 = false := by
      simp [containsInstrument]
      exact fun h => absurd h.symm hne
    rw [if_neg (by simp [hcon])]
    have hins2 : insertInstrument [(f, [i1])] f i2 = [(f, [i2, i1])] := by
      unfold insertInstrument
      rw [if_pos rfl]
    rw [hins2]
    rfl

/-- Witness for C7 with instruments `a`, `b` and sample files `x.wav`,
`y.wav`, `tom.wav`. -/
theorem instrumentation_duplicate_spec_witness :
    Instrumentation.parse
        (some [('a' :: ' ' :: "x.wav".toList), ('a' :: ' ' :: "y.wav".toList)])
      = Except.error (Error.DuplicateInstrumentError ['a'])
  ∧ Instrumentation.parse
        (some [('a' :: ' ' :: "tom.wav".toList), ('b' :: ' ' :: "tom.wav".toList)])
      = Except.ok [("tom.wav".toList, [['b'], ['a']])] :=
  instrumentation_duplicate_spec ['a'] ['a'] ['b']
    ("tom.wav".toList) ("x.wav".toList) ("y.wav".toList)
    (by constructor <;> decide) (by constructor <;> decide)
    (by constructor <;> decide) (by constructor <;> decide)
    (by constructor <;> decide) (by constructor <;> decide)
    (by decide)

/-! ### Union and fold lemmas for the track binder -/

theorem union_right_comm : ∀ a b c : Steps,
    Steps.union (Steps.union a b) c = Steps.union (Steps.union a c) b := by
  intro a
  induction a with
  | nil => intro b c; rfl
  | cons x xs ih =>
    intro b c
    cases b with
    | nil => cases c <;> rfl
    | cons y ys =>
      cases c with
      | nil => rfl
      | cons z zs =>
        show ((x || y) || z) :: List.zipWith or (List.zipWith or xs ys) zs
          = ((x || z) || y) :: List.zipWith or (List.zipWith or xs zs) ys
        rw [Bool.or_right_comm]
        exact congrArg _ (ih ys zs)

theorem union_assoc : ∀ a b c : Steps,
    Steps.union (Steps.union a b) c = Steps.union a (Steps.union b c) := by
  intro a
  induction a with
  | nil => intro b c; rfl
  | cons x xs ih =>
    intro b c
    cases b with
    | nil => cases c <;> rfl
    | cons y ys =>
      cases c with
      | nil => rfl
      | cons z zs =>
        show ((x || y) || z) :: List.zipWith or (List.zipWith or xs ys) zs
          = (x || (y || z)) :: List.zipWith or xs (List.zipWith or ys zs)
        rw [Bool.or_assoc]
        exact congrArg _ (ih ys zs)

theorem zipWith_or_false_left : ∀ a : List Bool,
    List.zipWith or (List.replicate a.length false) a = a := by
  intro a
  induction a with
  | nil => rfl
  | cons x xs ih => simp [List.replicate_succ, ih]

theorem zipWith_or_false_right : ∀ a : List Bool,
    List.zipWith or a (List.replicate a.length false) = a := by
  intro a
  induction a with
  | nil => rfl
  | cons x xs ih => simp [List.replicate_succ, ih]

theorem union_zeros_left {a : Steps} (h : a.length = STEPS_PER_MEASURE) :
    Steps.union Steps.zeros a = a := by
  unfold Steps.union Steps.zeros
  rw [← h]
  exact zipWith_or_false_left a

theorem union_zeros_right {a : Steps} (h : a.length = STEPS_PER_MEASURE) :
    Steps.union a Steps.zeros = a := by
  unfold Steps.union Steps.zeros
  rw [← h]
  exact zipWith_or_false_right a

theorem union_length {a b : Steps} (ha : a.length = STEPS_PER_MEASURE)
    (hb : b.length = STEPS_PER_MEASURE) :
    (Steps.union a b).length = STEPS_PER_MEASURE := by
  unfold Steps.union
  rw [List.length_zipWith, ha, hb]
  rfl

/-- The step sequences of the instruments that have a pattern entry. -/
def patternSteps (p : Pattern) (instruments : List Instrument) : List Steps :=
  instruments.filterMap fun i => (Pattern.get p i).map fun v => v.1

/-- The amplitudes of the instruments that have a pattern entry. -/
def patternAmps (p : Pattern) (instruments : List Instrument) : List ℚ :=
  instruments.filterMap fun i => (Pattern.get p i).map fun v => v.2

/-- Modelled from the spec: "the union of the Step Sequences of all its
bound Instruments" as a fold of unions starting from the all-silent
sequence. -/
def unionOfList (l : List Steps) : Steps := l.foldl Steps.union Steps.zeros

/-- Modelled from the spec: "the minimum Amplitude among those instruments
that do have a Pattern entry (defaulting to full volume if none do)". -/
def specMinAmp (l : List ℚ) : ℚ :=
  match l with
  | [] => 1
  | a :: t => t.foldl min a

theorem bindStep_right_comm (p : Pattern) (acc : Steps × (Steps × ℚ))
    (x y : Instrument) :
    bindStep p (bindStep p acc x) y = bindStep p (bindStep p acc y) x := by
  unfold bindStep
  cases hx : Pattern.get p x with
  | none => cases hy : Pattern.get p y <;> rfl
  | some vx =>
    cases hy : Pattern.get p y with
    | none => rfl
    | some vy =>
      obtain ⟨sx, ax⟩ := vx
      obtain ⟨sy, ay⟩ := vy
      show (Steps.union (Steps.union acc.1 sx) sy,
            (Steps.union (Steps.union acc.2.1 sx) sy, min (min acc.2.2 ax) ay))
        = (Steps.union (Steps.union acc.1 sy) sx,
            (Steps.union (Steps.union acc.2.1 sy) sx, min (min acc.2.2 ay) ax))
      rw [union_right_comm, union_right_comm acc.2.1, min_right_comm]

theorem bindStep_foldl (p : Pattern) :
    ∀ (is : List Instrument) (ag st : Steps) (am : ℚ),
      is.foldl (bindStep p) (ag, (st, am))
        = ((patternSteps p is).foldl Steps.union ag,
           ((patternSteps p is).foldl Steps.union st,
            (patternAmps p is).foldl min am)) := by
  intro is
  induction is with
  | nil => intro ag st am; simp [patternSteps, patternAmps]
  | cons i t ih =>
    intro ag st am
    cases hg : Pattern.get p i with
    | none =>
      rw [List.foldl_cons]
      have hb : bindStep p (ag, (st, am)) i = (ag, (st, am)) := by
        unfold bindStep
        rw [hg]
      rw [hb, ih]
      unfold patternSteps patternAmps
      rw [List.filterMap_cons, List.filterMap_cons, hg]
      rfl
    | some v =>
      obtain ⟨s, a⟩ := v
      rw [List.foldl_cons]
      have hb : bindStep p (ag, (st, am)) i
          = (Steps.union ag s, (Steps.union st s, min am a)) := by
        unfold bindStep
        rw [hg]
      rw [hb, ih]
      unfold patternSteps patternAmps
      rw [List.filterMap_cons, List.filterMap_cons, hg]
      rfl

theorem patternSteps_length (p : Pattern)
    (hlen : ∀ i s a, Pattern.get p i = some (s, a) → s.length = STEPS_PER_MEASURE)
    (is : List Instrument) :
    ∀ s ∈ patternSteps p is, s.length = STEPS_PER_MEASURE := by
  intro s hs
  unfold patternSteps at hs
  obtain ⟨i, _, hmap⟩ := List.mem_filterMap.mp hs
  cases hg : Pattern.get p i with
  | none => rw [hg] at hmap; exact absurd hmap (by simp)
  | some v =>
    rw [hg] at hmap
    simp only [Option.map_some'] at hmap
    cases hmap
    exact hlen i v.1 v.2 (by rw [hg])

theorem foldl_union_length {l : List Steps}
    (hl : ∀ s ∈ l, s.length = STEPS_PER_MEASURE) :
    ∀ {x : Steps}, x.length = STEPS_PER_MEASURE →
      (l.foldl Steps.union x).length = STEPS_PER_MEASURE := by
  induction l with
  | nil => intro x hx; exact hx
  | cons s t ih =>
    intro x hx
    rw [List.foldl_cons]
    exact ih (fun u hu => hl u (by simp [hu]))
      (union_length hx (hl s (by simp)))

theorem foldl_union_from {l : List Steps}
    (hl : ∀ s ∈ l, s.length = STEPS_PER_MEASURE) :
    ∀ {ag : Steps}, ag.length = STEPS_PER_MEASURE →
      l.foldl Steps.union ag = Steps.union ag (unionOfList l) := by
  induction l with
  | nil =>
    intro ag hag
    rw [List.foldl_nil]
    exact (union_zeros_right hag).symm
  | cons s t ih =>
    intro ag hag
    have hs : s.length = STEPS_PER_MEASURE := hl s (by simp)
    have ht : ∀ u ∈ t, u.length = STEPS_PER_MEASURE :=
      fun u hu => hl u (by simp [hu])
    have hzl : (Steps.zeros : Steps).length = STEPS_PER_MEASURE := by decide
    rw [List.foldl_cons, ih ht (union_length hag hs)]
    have hR : unionOfList (s :: t) = Steps.union s (unionOfList t) := by
      unfold unionOfList
      rw [List.foldl_cons, ih ht (union_length hzl hs), union_zeros_left hs]
      rfl
    rw [hR, union_assoc]

theorem foldl_min_le_one {l : List ℚ} (hl : ∀ a ∈ l, a ≤ 1) :
    l.foldl min 1 = specMinAmp l := by
  cases l with
  | nil => rfl
  | cons a t =>
    unfold specMinAmp
    rw [List.foldl_cons, min_eq_right (hl a (by simp))]

/-- The per-sample-file loop of `bind_tracks`, with tracks and aggregate
expressed through `bindFold`. -/
theorem bind_tracks_loop (p : Pattern)
    (hlen : ∀ i s a, Pattern.get p i = some (s, a) → s.length = STEPS_PER_MEASURE) :
    ∀ (instr : Instrumentation) (ts : List (SampleFile × (Steps × ℚ)))
      (ag : Steps), ag.length = STEPS_PER_MEASURE →
      instr.foldl
          (fun acc e =>
            let r := bindFoldAgg p acc.2 e.2
            (acc.1 ++ [(e.1, r.2)], r.1))
          (ts, ag)
        = (ts ++ instr.map fun e => (e.1, bindFold p e.2),
           (instr.map fun e => (bindFold p e.2).1).foldl Steps.union ag) := by
  intro instr
  induction instr with
  | nil =>
    intro ts ag _
    show (ts, ag) = _
    rw [List.map_nil, List.map_nil, List.foldl_nil, List.append_nil]
  | cons e rest ih =>
    intro ts ag hag
    obtain ⟨f, is⟩ := e
    have hfold := bindStep_foldl p is ag Steps.zeros 1
    have hfold0 := bindStep_foldl p is Steps.zeros Steps.zeros 1
    have hzl : (Steps.zeros : Steps).length = STEPS_PER_MEASURE := by decide
    have hsl := patternSteps_length p hlen is
    have htr : bindFold p is
        = ((patternSteps p is).foldl Steps.union Steps.zeros,
           (patternAmps p is).foldl min 1) := by
      unfold bindFold bindFoldAgg
      rw [hfold0]
    have hagg : bindFoldAgg p ag is
        = (Steps.union ag (bindFold p is).1, bindFold p is) := by
      unfold bindFoldAgg
      rw [hfold, htr]
      rw [foldl_union_from hsl hag]
      have : unionOfList (patternSteps p is)
          = (patternSteps p is).foldl Steps.union Steps.zeros := rfl
      rw [this]
    have htl : (bindFold p is).1.length = STEPS_PER_MEASURE := by
      rw [htr]
      exact foldl_union_length hsl hzl
    rw [List.foldl_cons]
    show List.foldl _ (ts ++ [(f, (bindFoldAgg p ag is).2)], (bindFoldAgg p ag is).1) rest = _
    rw [hagg]
    rw [ih (ts ++ [(f, bindFold p is)]) (Steps.union ag (bindFold p is).1)
      (union_length hag htl)]
    simp [List.append_assoc]

/-- The tom example of the spec: `tom-1` plays step 0 at full volume. -/
def tomSteps1 : Steps := true :: List.replicate 15 false

/-- The tom example of the spec: `tom-2` plays step 8 at amplitude 0.3. -/
def tomSteps2 : Steps :=
  List.replicate 8 false ++ true :: List.replicate 7 false

/-- The amplitude 0.3 of the tom example. -/
def ampPoint3 : ℚ := ⟨3, 10, by norm_num, by norm_num⟩

/-- The pattern of the tom example. -/
def tomPattern : Pattern :=
  [("tom-1".toList, (tomSteps1, 1)), ("tom-2".toList, (tomSteps2, ampPoint3))]

/-- The instrumentation of the tom example: both toms bound to `tom.wav`. -/
def tomInstr : Instrumentation :=
  [("tom.wav".toList, ["tom-1".toList, "tom-2".toList])]

/-- Steps `{0, 8}`: the union of the tom example's step sequences. -/
def tomStepsBoth : Steps :=
  [true, false, false, false, false, false, false, false,
   true, false, false, false, false, false, false, false]

theorem Pattern.get_cons (k : Instrument) (v : List Bool × ℚ) (m : Pattern)
    (i : Instrument) :
    Pattern.get ((k, v) :: m) i = if k = i then some v else Pattern.get m i := rfl

theorem tomPattern_entries (i : Instrument) (s : List Bool) (a : ℚ)
    (h : Pattern.get tomPattern i = some (s, a)) :
    s.length = STEPS_PER_MEASURE ∧ a ≤ 1 := by
  unfold tomPattern at h
  rw [Pattern.get_cons, Pattern.get_cons] at h
  by_cases h1 : ("tom-1".toList : List Char) = i
  · rw [if_pos h1] at h
    cases h
    exact ⟨by decide, by decide⟩
  · rw [if_neg h1] at h
    by_cases h2 : ("tom-2".toList : List Char) = i
    · rw [if_pos h2] at h
      cases h
      exact ⟨by decide, by decide⟩
    · rw [if_neg h2] at h
      exact absurd h (by simp [Pattern.get])

/-- C3: for each sample file, `bind_tracks` produces the track
`bindFold`, whose step sequence is the union of the step sequences of the
file's instruments that have a pattern entry and whose amplitude is the
minimum amplitude among them (full volume when none); the track does not
depend on the order of the file's instrument set; the aggregate sequence is
the union of every track's step sequence; and on the tom example the single
track for `tom.wav` has steps `{0, 8}` at amplitude 0.3. -/
theorem bind_tracks_spec (p : Pattern)
    (hlen : ∀ i s a, Pattern.get p i = some (s, a) → s.length = STEPS_PER_MEASURE)
    (hamp : ∀ i s a, Pattern.get p i = some (s, a) → a ≤ 1) :
    (∀ is1 is2 : List Instrument, is1.Perm is2 → bindFold p is1 = bindFold p is2)
  ∧ (∀ instr : Instrumentation,
      (bind_tracks p instr).1 = instr.map fun e => (e.1, bindFold p e.2))
  ∧ (∀ is : List Instrument, (bindFold p is).1 = unionOfList (patternSteps p is))
  ∧ (∀ is : List Instrument, (bindFold p is).2 = specMinAmp (patternAmps p is))
  ∧ (∀ instr : Instrumentation,
      (bind_tracks p instr).2
        = unionOfList ((bind_tracks p instr).1.map fun e => e.2.1))
  ∧ bind_tracks tomPattern tomInstr
      = ([("tom.wav".toList, (tomStepsBoth, ampPoint3))], tomStepsBoth) := by
  have hzl : (Steps.zeros : Steps).length = STEPS_PER_MEASURE := by decide
  have htrack : ∀ is : List Instrument,
      bindFold p is
        = ((patternSteps p is).foldl Steps.union Steps.zeros,
           (patternAmps p is).foldl min 1) := by
    intro is
    unfold bindFold bindFoldAgg
    rw [bindStep_foldl p is Steps.zeros Steps.zeros 1]
  refine ⟨?_, ?_, ?_, ?_, ?_, ?_⟩
  · intro is1 is2 hperm
    unfold bindFold bindFoldAgg
    rw [hperm.foldl_eq' fun x _ y _ z => bindStep_right_comm p z x y]
  · intro instr
    have hloop2 := bind_tracks_loop p hlen instr [] Steps.zeros hzl
    unfold bind_tracks
    rw [hloop2]
    rfl
  · intro is
    rw [htrack]
    rfl
  · intro is
    rw [htrack]
    exact foldl_min_le_one fun a ha => by
      obtain ⟨i, _, hmap⟩ := List.mem_filterMap.mp ha
      cases hg : Pattern.get p i with
      | none => rw [hg] at hmap; exact absurd hmap (by simp)
      | some v =>
        rw [hg] at hmap
        simp only [Option.map_some'] at hmap
        cases hmap
        exact hamp i v.1 v.2 (by rw [hg])
  · intro instr
    have hloop := bind_tracks_loop p hlen instr [] Steps.zeros hzl
    unfold bind_tracks
    rw [hloop]
    show (List.map (fun e => (bindFold p e.2).1) instr).foldl Steps.union Steps.zeros
      = unionOfList (((instr.map fun e => (e.1, bindFold p e.2)).map fun e => e.2.1))
    rw [List.map_map]
    rfl
  · rfl

/-- Witness for C3: `bind_tracks` on the tom example, with the pattern
invariants discharged. -/
theorem bind_tracks_spec_witness :
    bind_tracks tomPattern tomInstr
      = ([("tom.wav".toList, (tomStepsBoth, ampPoint3))], tomStepsBoth) :=
  (bind_tracks_spec tomPattern
    (fun i s a h => (tomPattern_entries i s a h).1)
    (fun i s a h => (tomPattern_entries i s a h).2)).2.2.2.2.2

/-- The all-silent step block used to exercise a full track line. -/
def blockChars : List Char := "|----|----|----|----|".toList

/-- C6: `parse_amplitude` accepts a parsed numeric value exactly when it
lies in `[0, 1]` (out-of-range values fail the parse, they are never
clamped); a token `float` cannot parse is left in place with no amplitude,
which then fails the whole track line (leftover content); and a missing
amplitude defaults to exactly 1. -/
theorem parse_amplitude_spec (s r : List Char) (v : ℚ) (tok : List Char) :
    (float s = some (r, v) →
      (parse_amplitude s = some (r, some v) ↔ (0 ≤ v ∧ v ≤ 1)))
  ∧ (float s = some (r, v) → ¬(0 ≤ v ∧ v ≤ 1) → parse_amplitude s = none)
  ∧ (float s = none → parse_amplitude s = some (s, none))
  ∧ Amplitude.defaulting none = 1
  ∧ (tok ≠ [] → (∀ c ∈ tok, isSpaceTab c = false) → float tok = none →
      parse_track ('a' :: ' ' :: (blockChars ++ ' ' :: tok)) = none) := by
  refine ⟨?_, ?_, ?_, rfl, ?_⟩
  · intro h
    unfold parse_amplitude
    rw [h]
    show (if 0 ≤ v ∧ v ≤ 1 then some (r, some v) else none) = some (r, some v)
      ↔ (0 ≤ v ∧ v ≤ 1)
    by_cases hr : 0 ≤ v ∧ v ≤ 1
    · rw [if_pos hr]
      exact ⟨fun _ => hr, fun _ => rfl⟩
    · rw [if_neg hr]
      exact ⟨fun hcontra => absurd hcontra (by simp), fun hr2 => absurd hr2 hr⟩
  · intro h hr
    unfold parse_amplitude
    rw [h]
    show (if 0 ≤ v ∧ v ≤ 1 then some (r, some v) else none) = none
    rw [if_neg hr]
  · intro h
    unfold parse_amplitude
    rw [h]
  · intro hne hnsp hfl
    obtain ⟨c0, tok', rfl⟩ : ∃ c0 t', tok = c0 :: t' := by
      cases tok with
      | nil => exact absurd rfl hne
      | cons a b => exact ⟨a, b, rfl⟩
    have hc0 : isSpaceTab c0 = false := hnsp c0 (by simp)
    unfold parse_track
    have h0 : space0 ('a' :: ' ' :: (blockChars ++ ' ' :: c0 :: tok'))
        = 'a' :: ' ' :: (blockChars ++ ' ' :: c0 :: tok') := by
      unfold space0
      exact List.dropWhile_cons_of_neg (by decide)
    rw [h0]
    have hin : parse_instrument ('a' :: ' ' :: (blockChars ++ ' ' :: c0 :: tok'))
        = some (' ' :: (blockChars ++ ' ' :: c0 :: tok'), ['a']) := by
      unfold parse_instrument is_not
      rw [show ('a' :: ' ' :: (blockChars ++ ' ' :: c0 :: tok'))
            = ['a'] ++ ' ' :: (blockChars ++ ' ' :: c0 :: tok') from rfl]
      rw [takeWhile_append_stop _ _ _ (by decide) (by decide),
        dropWhile_append_stop _ _ _ (by decide) (by decide)]
      simp
    rw [hin]
    show (match parse_steps (space0 (' ' :: (blockChars ++ ' ' :: c0 :: tok'))) with
          | none => none
          | some (s2, steps) =>
            match parse_amplitude (space0 s2) with
            | none => none
            | some (s3, amplitude) =>
              if (space0 s3).isEmpty then
                some (['a'], steps, Amplitude.defaulting amplitude)
              else none) = none
    have h1 : space0 (' ' :: (blockChars ++ ' ' :: c0 :: tok'))
        = blockChars ++ ' ' :: c0 :: tok' := by
      unfold space0
      rw [List.dropWhile_cons_of_pos (by decide)]
      exact List.dropWhile_cons_of_neg (by decide)
    rw [h1]
    have hblock : ∀ c ∈ blockChars, stepsChar c = true := by decide
    have h2 : stepsFold (blockChars ++ ' ' :: c0 :: tok')
        = some (' ' :: c0 :: tok', List.replicate 16 false) := by
      unfold stepsFold
      rw [takeWhile_append_stop _ _ _ hblock (by decide),
        dropWhile_append_stop _ _ _ hblock (by decide)]
      rw [if_neg (by decide)]
      rw [show (blockChars.filterMap fun c =>
            if c == 'x' then some true else if c == '-' then some false
            else none) = List.replicate 16 false from by decide]
    have h3 : parse_steps (blockChars ++ ' ' :: c0 :: tok')
        = some (' ' :: c0 :: tok', List.replicate 16 false) := by
      unfold parse_steps
      rw [h2]
      show (if (List.replicate 16 false).length = STEPS_PER_MEASURE
            then some (' ' :: c0 :: tok', List.replicate 16 false) else none) = _
      rw [if_pos (by decide)]
    rw [h3]
    show (match parse_amplitude (space0 (' ' :: c0 :: tok')) with
          | none => none
          | some (s3, amplitude) =>
            if (space0 s3).isEmpty then
              some (['a'], List.replicate 16 false, Amplitude.defaulting amplitude)
            else none) = none
    have h4 : space0 (' ' :: c0 :: tok') = c0 :: tok' := by
      unfold space0
      rw [List.dropWhile_cons_of_pos (by decide)]
      exact List.dropWhile_cons_of_neg (by simp [hc0])
    rw [h4]
    have h5 : parse_amplitude (c0 :: tok') = some (c0 :: tok', none) := by
      unfold parse_amplitude
      rw [hfl]
    rw [h5]
    show (if (space0 (c0 :: tok')).isEmpty then
          some (['a'], List.replicate 16 false, Amplitude.defaulting none)
          else none) = none
    have h6 : space0 (c0 :: tok') = c0 :: tok' := by
      unfold space0
      exact List.dropWhile_cons_of_neg (by simp [hc0])
    rw [h6]
    rfl

/-- Witness for C6: amplitude `0.5` is accepted with value one half; `1.1`
is rejected; the missing amplitude defaults to 1; a non-numeric token makes
the whole line fail. -/
theorem parse_amplitude_spec_witness :
    parse_amplitude ("0.5".toList) = some ([], some (1 / 2))
  ∧ parse_amplitude ("1.1".toList) = none
  ∧ parse_amplitude ("abc".toList) = some ("abc".toList, none)
  ∧ Amplitude.defaulting none = 1
  ∧ parse_track ('a' :: ' ' :: (blockChars ++ ' ' :: "abc".toList)) = none := by
  have hfl05 : float ("0.5".toList) = some ([], 1 / 2) := by
    simp [float, digitsToNat]
    norm_num
  have hfl11 : float ("1.1".toList) = some ([], 11 / 10) := by
    simp [float, digitsToNat]
    norm_num
  have hflabc : float ("abc".toList) = none := by decide
  refine ⟨?_, ?_, ?_, ?_, ?_⟩
  · exact ((parse_amplitude_spec ("0.5".toList) [] (1 / 2) []).1 hfl05).mpr
      (by norm_num)
  · exact (parse_amplitude_spec ("1.1".toList) [] (11 / 10) []).2.1 hfl11
      (by norm_num)
  · exact (parse_amplitude_spec ("abc".toList) [] 0 []).2.2.1 hflabc
  · rfl
  · exact (parse_amplitude_spec [] [] 0 ("abc".toList)).2.2.2.2
      (by decide) (by decide) hflabc

/-- C9: `measure_duration T` is `240 / T` seconds for every `T > 0`,
`step_duration` is a sixteenth of it, and at tempo 120 the measure lasts 2
seconds, a step lasts 0.125 seconds, and the delay factor is 1. -/
theorem measure_step_duration_values (t : ℚ) (ht : 0 < t) :
    measure_duration t = 240 / t
  ∧ step_duration t = measure_duration t / 16
  ∧ measure_duration 120 = 2
  ∧ step_duration 120 = 1 / 8
  ∧ delay_factor 120 = 1 := by
  have ht' : t ≠ 0 := ne_of_gt ht
  refine ⟨?_, ?_, ?_, ?_, ?_⟩
  · unfold measure_duration BEATS_PER_MEASURE
    field_simp
    ring
  · unfold step_duration STEPS_PER_MEASURE
    norm_num
  · unfold measure_duration BEATS_PER_MEASURE
    norm_num
  · unfold step_duration measure_duration STEPS_PER_MEASURE BEATS_PER_MEASURE
    norm_num
  · unfold delay_factor
    norm_num

/-- Witness for C9 at tempo 120. -/
theorem measure_step_duration_values_witness :
    (0 : ℚ) < 120
  ∧ (measure_duration 120 = 240 / 120
    ∧ step_duration 120 = measure_duration 120 / 16
    ∧ measure_duration 120 = 2
    ∧ step_duration 120 = 1 / 8
    ∧ delay_factor 120 = 1) :=
  ⟨by decide, measure_step_duration_values 120 (by decide)⟩

/-- C10: at tempo 0 `measure_duration` feeds `Duration::from_secs_f32` a
non-finite value (division by zero) and panics; for every 16-bit tempo above
240 the delay factor is negative, so `delay_pad_duration` (whose `mul_f32`
converts a negative product) panics, in particular whenever at least one
trailing silent step exists. -/
theorem timing_panics (t : ℕ) (h240 : 240 < t) (_hmax : t ≤ 65535)
    (n : ℕ) (_hn : 1 ≤ n) :
    measure_durationE 0 = none
  ∧ delay_factor (t : ℚ) < 0
  ∧ delay_pad_durationE t n = none := by
  have htQ : (240 : ℚ) < (t : ℚ) := by exact_mod_cast h240
  have htpos : (0 : ℚ) < (t : ℚ) := by linarith
  have htne : ((t : ℚ) / 60 / (BEATS_PER_MEASURE : ℚ)) ≠ 0 := by
    unfold BEATS_PER_MEASURE
    push_cast
    positivity
  have hfac : delay_factor (t : ℚ) < 0 := by
    unfold delay_factor
    linarith
  have htne0 : (t : ℚ) ≠ 0 := ne_of_gt htpos
  refine ⟨?_, hfac, ?_⟩
  · unfold measure_durationE fdiv from_secs_f32E BEATS_PER_MEASURE
    norm_num
  · have h1 : (0 : ℚ) ≤ 1 / ((t : ℚ) / 60 / (BEATS_PER_MEASURE : ℚ)) := by
      unfold BEATS_PER_MEASURE
      positivity
    have heq : (1 : ℚ) / ((t : ℚ) / 60 / (BEATS_PER_MEASURE : ℚ))
        = 240 / (t : ℚ) := by
      unfold BEATS_PER_MEASURE
      push_cast
      field_simp
      ring
    have h2 : 1 / ((t : ℚ) / 60 / (BEATS_PER_MEASURE : ℚ)) < 2 ^ 64 := by
      rw [heq]
      have hlt1 : (240 : ℚ) / (t : ℚ) < 1 := by
        rw [div_lt_one htpos]
        exact htQ
      have : (1 : ℚ) < 2 ^ 64 := by norm_num
      linarith
    have hmd : measure_durationE t
        = some (1 / ((t : ℚ) / 60 / (BEATS_PER_MEASURE : ℚ))) := by
      unfold measure_durationE
      have hf : fdiv 1 ((t : ℚ) / 60 / (BEATS_PER_MEASURE : ℚ))
          = some (1 / ((t : ℚ) / 60 / (BEATS_PER_MEASURE : ℚ))) := by
        unfold fdiv
        rw [if_neg htne]
      rw [hf]
      simp only [from_secs_f32E]
      rw [if_pos ⟨h1, h2⟩]
    have hstep : step_durationE t
        = some (1 / ((t : ℚ) / 60 / (BEATS_PER_MEASURE : ℚ))
            / (STEPS_PER_MEASURE : ℚ)) := by
      unfold step_durationE
      rw [hmd]
      rfl
    have hdpos : 0 < 1 / ((t : ℚ) / 60 / (BEATS_PER_MEASURE : ℚ))
        / (STEPS_PER_MEASURE : ℚ) := by
      unfold BEATS_PER_MEASURE STEPS_PER_MEASURE
      positivity
    have hneg : ¬ (0 ≤ 1 / ((t : ℚ) / 60 / (BEATS_PER_MEASURE : ℚ))
          / (STEPS_PER_MEASURE : ℚ) * delay_factor (t : ℚ)
        ∧ 1 / ((t : ℚ) / 60 / (BEATS_PER_MEASURE : ℚ))
          / (STEPS_PER_MEASURE : ℚ) * delay_factor (t : ℚ) < 2 ^ 64) :=
      fun h => absurd h.1 (not_le_of_lt (mul_neg_of_pos_of_neg hdpos hfac))
    unfold delay_pad_durationE
    rw [hstep]
    simp only [Option.some_bind]
    unfold mul_f32E
    simp only [from_secs_f32E]
    rw [if_neg hneg]
    rfl

/-- Witness for C10 at tempo 241 with one trailing silent step. -/
theorem timing_panics_witness :
    (240 < 241 ∧ 241 ≤ 65535 ∧ 1 ≤ 1)
  ∧ (measure_durationE 0 = none
    ∧ delay_factor ((241 : ℕ) : ℚ) < 0
    ∧ delay_pad_durationE 241 1 = none) :=
  ⟨⟨by decide, by decide, by decide⟩,
    timing_panics 241 (by decide) (by decide) 1 (by decide)⟩

end Rudiments
